import Mathlib

/-!
Shallow embedding of the blob-detection core of the light-cv repository:
the four detector variants (src/core/algorithms/otsu.py, percentile.py,
fixed.py, peaks.py), the shared metadata record
(src/core/algorithms/__init__.py) and the greedy degree-bounded line
connector (src/core/draw/lines.py, src/utils.py draw_lines).

Image-processing primitives (cv2 / numpy) are external collaborators: they
are modelled by an `ImageOps` record of abstract functions over which the
theorems quantify, except where a claim is about their documented
behaviour (`np.percentile`, `cv2.threshold` with `THRESH_BINARY`,
`cv2.minMaxLoc`), which is embedded concretely.
-/

set_option maxRecDepth 10000

namespace LightCV

/-- A single-channel 8-bit image, flattened to its pixel values. -/
abbrev Gray := List Nat

/-- A BGR colour frame, flattened to its pixels. -/
abbrev Frame := List (Nat × Nat × Nat)

/-- A contour as measured by the external image library: `cv2.contourArea`
returns `area` (a float, modelled by a rational) and `cv2.boundingRect`
returns the upright rectangle `(x, y, w, h)` with non-negative integer
coordinates. Contour extraction itself is external. -/
structure Contour where
  area : ℚ
  x : ℕ
  y : ℕ
  w : ℕ
  h : ℕ
deriving DecidableEq

/-- The `AlgorithmMetadata` record of src/core/algorithms/__init__.py:
the detection-result contract shared by all four variants. -/
structure AlgorithmMetadata where
  centers : List (ℤ × ℤ)
  boxes : List (ℕ × ℕ × ℕ × ℕ)
  areas : List ℚ
  labels : List String
deriving DecidableEq

/-- Python's `int()` truncation toward zero on a real value, modelled on ℚ. -/
def pyInt (q : ℚ) : ℤ := if 0 ≤ q then ⌊q⌋ else ⌈q⌉

/-- The external image operations the detectors call (cv2 primitives).
The detectors are embedded as functions parameterised over this record;
kernel sizes and iteration counts are passed through verbatim. -/
structure ImageOps where
  cvtColorGray : Frame → Gray
  gaussianBlur : Gray → ℤ → Gray
  otsuBinarize : Gray → Gray
  morphOpen : Gray → ℤ → ℕ → Gray
  morphClose : Gray → ℤ → ℕ → Gray
  findContours : Gray → List Contour
  distanceTransform : Gray → List ℚ
  dilateDist : List ℚ → ℤ → List ℚ
  connectedCentroids : Gray → List (ℚ × ℚ)

/-- The label list comprehension of the contour variants, which renders
`i` and `areas[i]` for each index (the fixed-decimal float formatting of
the f-string is modelled by plain rational printing). -/
def mkLabelsFrom (i : ℕ) : List ℚ → List String
  | [] => []
  | a :: rest => (toString i ++ " " ++ toString a) :: mkLabelsFrom (i + 1) rest

/-- `labels` built from `enumerate(areas)`, starting at index 0. -/
def mkLabels (areas : List ℚ) : List String := mkLabelsFrom 0 areas

/-- The contour loop shared by the Otsu/Percentile/Fixed `process_frame`:
walk the contours in discovery order, `continue` when
`area < min_area or area > max_area`, otherwise append the bounding-rect
center `(x + w // 2, y + h // 2)`, the rect, and the area. -/
def collectDetections (min_area max_area : ℤ) :
    List Contour → List (ℤ × ℤ) × List (ℕ × ℕ × ℕ × ℕ) × List ℚ
  | [] => ([], [], [])
  | c :: rest =>
    if c.area < (min_area : ℚ) ∨ (max_area : ℚ) < c.area then
      collectDetections min_area max_area rest
    else
      let r := collectDetections min_area max_area rest
      ((((c.x + c.w / 2 : ℕ) : ℤ), ((c.y + c.h / 2 : ℕ) : ℤ)) :: r.1,
       (c.x, c.y, c.w, c.h) :: r.2.1,
       c.area :: r.2.2)

/-- The metadata dictionary built at the end of the contour variants. -/
def contourMetadata (min_area max_area : ℤ) (contours : List Contour) :
    AlgorithmMetadata :=
  let r := collectDetections min_area max_area contours
  { centers := r.1, boxes := r.2.1, areas := r.2.2, labels := mkLabels r.2.2 }

/-- `cv2.threshold(img, t, 255, cv2.THRESH_BINARY)` on an 8-bit image:
a pixel becomes 255 exactly when its value is strictly greater than the
threshold. (OpenCV floors a fractional threshold for integer images;
`p > floor t` coincides with `(p : ℚ) > t` for integer `p`.) -/
def threshBinary (img : Gray) (t : ℚ) : Gray :=
  img.map fun p => if t < ((p : ℕ) : ℚ) then 255 else 0

/-- `np.percentile(xs, q)` with the default linear interpolation: sort the
values, take the virtual index `q / 100 * (n - 1)`, and interpolate
linearly between the neighbouring order statistics. -/
def npPercentile (xs : List ℚ) (q : ℚ) : ℚ :=
  let s := xs.insertionSort (· ≤ ·)
  let n := xs.length
  if n = 0 then 0
  else
    let idx : ℚ := q / 100 * ((n : ℚ) - 1)
    let k : ℕ := (⌊idx⌋).toNat
    let lo := s.getD k 0
    let hi := s.getD (min (k + 1) (n - 1)) 0
    lo + (idx - (k : ℚ)) * (hi - lo)

/-- `OtsuOptions` (src/core/algorithms/otsu.py), with its defaults. -/
structure OtsuOptions where
  blur_size : ℤ := 5
  clean_size : ℤ := 3
  min_area : ℤ := 2
  max_area : ℤ := 86400
deriving DecidableEq

/-- `otsu_thresholding`: gray, Gaussian blur, Otsu binarization, then
morphological open and close (one iteration each). -/
def otsu_thresholding (ops : ImageOps) (frame : Frame)
    (blur_size clean_size : ℤ) : Gray :=
  let gray := ops.cvtColorGray frame
  let blur := ops.gaussianBlur gray blur_size
  let thresh := ops.otsuBinarize blur
  let thresh2 := ops.morphOpen thresh clean_size 1
  ops.morphClose thresh2 clean_size 1

/-- `process_frame` of the Otsu variant: returns the 4-tuple
`(thresh, contours, centers, metadata)` exactly as the source does. -/
def Otsu.process_frame (ops : ImageOps) (frame : Frame) (options : OtsuOptions) :
    Gray × List Contour × List (ℤ × ℤ) × AlgorithmMetadata :=
  let thresh := otsu_thresholding ops frame options.blur_size options.clean_size
  let contours := ops.findContours thresh
  let metadata := contourMetadata options.min_area options.max_area contours
  (thresh, contours, metadata.centers, metadata)

/-- The contour list inside the value returned by the Otsu variant. -/
def Otsu.contoursOf (ops : ImageOps) (frame : Frame) (o : OtsuOptions) :
    List Contour :=
  (Otsu.process_frame ops frame o).2.1

/-- The metadata record inside the value returned by the Otsu variant. -/
def Otsu.metadataOf (ops : ImageOps) (frame : Frame) (o : OtsuOptions) :
    AlgorithmMetadata :=
  (Otsu.process_frame ops frame o).2.2.2

/-- `PercentileOptions` (src/core/algorithms/percentile.py). The
`percentile` field is annotated `int` in the dataclass but receives float
values from the UI; it is modelled on ℚ. -/
structure PercentileOptions where
  percentile : ℚ := 96
  blur_size : ℤ := 5
  clean_size : ℤ := 3
  min_area : ℤ := 2
  max_area : ℤ := 86400
deriving DecidableEq

/-- The pixel values of an 8-bit image viewed as rationals
(`np.percentile` consumes the integer image and computes on floats). -/
def grayToRats (g : Gray) : List ℚ := g.map fun p => ((p : ℕ) : ℚ)

/-- The binarization stage of `percentile_thresholding`:
`thresh_val = np.percentile(blur, percentile)` followed by
`cv2.threshold(blur, thresh_val, 255, cv2.THRESH_BINARY)`. -/
def percentileBinarize (blur : Gray) (percentile : ℚ) : Gray :=
  threshBinary blur (npPercentile (grayToRats blur) percentile)

/-- `percentile_thresholding`: gray, blur, percentile binarization, then
open and close (one iteration each). -/
def percentile_thresholding (ops : ImageOps) (frame : Frame)
    (percentile : ℚ) (blur_size clean_size : ℤ) : Gray :=
  let gray := ops.cvtColorGray frame
  let blur := ops.gaussianBlur gray blur_size
  let thresh := percentileBinarize blur percentile
  let thresh2 := ops.morphOpen thresh clean_size 1
  ops.morphClose thresh2 clean_size 1

/-- `process_frame` of the Percentile variant (again a 4-tuple). -/
def Percentile.process_frame (ops : ImageOps) (frame : Frame)
    (options : PercentileOptions) :
    Gray × List Contour × List (ℤ × ℤ) × AlgorithmMetadata :=
  let thresh := percentile_thresholding ops frame options.percentile
    options.blur_size options.clean_size
  let contours := ops.findContours thresh
  let metadata := contourMetadata options.min_area options.max_area contours
  (thresh, contours, metadata.centers, metadata)

/-- The contour list inside the value returned by the Percentile variant. -/
def Percentile.contoursOf (ops : ImageOps) (frame : Frame)
    (o : PercentileOptions) : List Contour :=
  (Percentile.process_frame ops frame o).2.1

/-- The metadata record inside the value returned by the Percentile variant. -/
def Percentile.metadataOf (ops : ImageOps) (frame : Frame)
    (o : PercentileOptions) : AlgorithmMetadata :=
  (Percentile.process_frame ops frame o).2.2.2

/-- `FixedOptions` (src/core/algorithms/fixed.py). -/
structure FixedOptions where
  margin : ℚ := 7 / 10
  blur_size : ℤ := 7
  clean_size : ℤ := 3
  min_area : ℤ := 5
  max_area : ℤ := 86400
deriving DecidableEq

/-- `fixed_thresholding`: gray, blur,
`thresh_val = int(max_val * margin)` from `cv2.minMaxLoc`, binary
threshold, then open and close with two iterations each. -/
def fixed_thresholding (ops : ImageOps) (frame : Frame)
    (margin : ℚ) (blur_size clean_size : ℤ) : Gray :=
  let gray := ops.cvtColorGray frame
  let blur := ops.gaussianBlur gray blur_size
  let max_val : ℕ := blur.foldl max 0
  let thresh_val : ℤ := pyInt ((max_val : ℚ) * margin)
  let thresh := threshBinary blur (thresh_val : ℚ)
  let thresh2 := ops.morphOpen thresh clean_size 2
  ops.morphClose thresh2 clean_size 2

/-- `process_frame` of the Fixed (margin-of-max) variant (a 4-tuple). -/
def Fixed.process_frame (ops : ImageOps) (frame : Frame)
    (options : FixedOptions) :
    Gray × List Contour × List (ℤ × ℤ) × AlgorithmMetadata :=
  let thresh := fixed_thresholding ops frame options.margin
    options.blur_size options.clean_size
  let contours := ops.findContours thresh
  let metadata := contourMetadata options.min_area options.max_area contours
  (thresh, contours, metadata.centers, metadata)

/-- The contour list inside the value returned by the Fixed variant. -/
def Fixed.contoursOf (ops : ImageOps) (frame : Frame) (o : FixedOptions) :
    List Contour :=
  (Fixed.process_frame ops frame o).2.1

/-- The metadata record inside the value returned by the Fixed variant. -/
def Fixed.metadataOf (ops : ImageOps) (frame : Frame) (o : FixedOptions) :
    AlgorithmMetadata :=
  (Fixed.process_frame ops frame o).2.2.2

/-- `PeaksOptions` (src/core/algorithms/peaks.py). -/
structure PeaksOptions where
  margin : ℚ := 7 / 10
  blur_size : ℤ := 5
  clean_size : ℤ := 3
  peak_size : ℤ := 15
deriving DecidableEq

/-- `peaks_thresholding`: gray, blur, margin-of-max binary threshold, one
morphological open, distance transform, dilation of the distance map, the
local-maximum mask (`dist == dist_dil` and `dist > 0`), and the integer
centroids of its connected components. -/
def peaks_thresholding (ops : ImageOps) (frame : Frame)
    (margin : ℚ) (blur_size clean_size peak_size : ℤ) :
    Gray × List (ℤ × ℤ) :=
  let gray := ops.cvtColorGray frame
  let blur := ops.gaussianBlur gray blur_size
  let max_val : ℕ := blur.foldl max 0
  let thresh_val : ℤ := pyInt ((max_val : ℚ) * margin)
  let thresh := threshBinary blur (thresh_val : ℚ)
  let thresh2 := ops.morphOpen thresh clean_size 1
  let dist := ops.distanceTransform thresh2
  let dist_dil := ops.dilateDist dist peak_size
  let local_max : Gray :=
    (dist.zip dist_dil).map fun dd => if dd.1 = dd.2 ∧ 0 < dd.1 then 255 else 0
  let centers := (ops.connectedCentroids local_max).map fun c => (pyInt c.1, pyInt c.2)
  (thresh2, centers)

/-- `process_frame` of the Peaks variant: unlike the other three variants
it returns the metadata record alone, with empty boxes/areas/labels. -/
def Peaks.process_frame (ops : ImageOps) (frame : Frame)
    (options : PeaksOptions) : AlgorithmMetadata :=
  let r := peaks_thresholding ops frame options.margin
    options.blur_size options.clean_size options.peak_size
  { centers := r.2, boxes := [], areas := [], labels := [] }

/-- The spec's error taxonomy names a `ConfigurationError` for option
values outside their documented range. No such class exists anywhere in
the repository and no detector performs any validation; this type exists
only so that the error behaviour claimed by the spec can be stated. -/
inductive ConfigurationError where
  | invalidOption : String → ConfigurationError
deriving DecidableEq

/-- The Otsu `process_frame` viewed as a fallible computation. The source
contains no raise path and no validation, so the embedding always
returns a normal result. -/
def Otsu.process_frameE (ops : ImageOps) (frame : Frame) (o : OtsuOptions) :
    Except ConfigurationError (Gray × List Contour × List (ℤ × ℤ) × AlgorithmMetadata) :=
  .ok (Otsu.process_frame ops frame o)

/-- The Percentile `process_frame` viewed as a fallible computation
(no raise path exists in the source). -/
def Percentile.process_frameE (ops : ImageOps) (frame : Frame)
    (o : PercentileOptions) :
    Except ConfigurationError (Gray × List Contour × List (ℤ × ℤ) × AlgorithmMetadata) :=
  .ok (Percentile.process_frame ops frame o)

/-- The Fixed `process_frame` viewed as a fallible computation
(no raise path exists in the source). -/
def Fixed.process_frameE (ops : ImageOps) (frame : Frame) (o : FixedOptions) :
    Except ConfigurationError (Gray × List Contour × List (ℤ × ℤ) × AlgorithmMetadata) :=
  .ok (Fixed.process_frame ops frame o)

/-- The Peaks `process_frame` viewed as a fallible computation
(no raise path exists in the source). -/
def Peaks.process_frameE (ops : ImageOps) (frame : Frame) (o : PeaksOptions) :
    Except ConfigurationError AlgorithmMetadata :=
  .ok (Peaks.process_frame ops frame o)

/-! The ProximityConnector: `draw_lines` of src/utils.py and
`draw_frame` of src/core/draw/lines.py implement the same algorithm;
the drawn line segments are modelled by the list of emitted edges. -/

/-- `d2 = dx*dx + dy*dy`: squared Euclidean distance between two centers. -/
def sqDist (p q : ℤ × ℤ) : ℤ :=
  let dx := p.1 - q.1
  let dy := p.2 - q.2
  dx * dx + dy * dy

/-- The index pairs `(i, j)` produced by the nested loops
`for i, _ in enumerate(centers): for j in range(i + 1, len(centers))`,
in that enumeration order. -/
def indexPairs (n : ℕ) : List (ℕ × ℕ) :=
  (List.range n).flatMap fun i =>
    (List.range' (i + 1) (n - (i + 1))).map fun j => (i, j)

/-- The candidate list `pairs`: triples `(d2, i, j)` in enumeration order. -/
def candidatePairs (cs : List (ℤ × ℤ)) : List (ℤ × ℕ × ℕ) :=
  (indexPairs cs.length).map fun ij =>
    (sqDist (cs.getD ij.1 (0, 0)) (cs.getD ij.2 (0, 0)), ij.1, ij.2)

/-- The sort key of `pairs.sort(key=lambda t: t[0])`: compare candidate
triples by squared distance only. -/
def pairLE (a b : ℤ × ℕ × ℕ) : Prop := a.1 ≤ b.1

instance : DecidableRel pairLE := fun a b => inferInstanceAs (Decidable (a.1 ≤ b.1))

instance : IsTotal (ℤ × ℕ × ℕ) pairLE := ⟨fun a b => le_total a.1 b.1⟩

instance : IsTrans (ℤ × ℕ × ℕ) pairLE := ⟨fun _ _ _ h1 h2 => le_trans h1 h2⟩

/-- `pairs.sort(key=lambda t: t[0])`: Python's list sort is stable, and a
stable sort is uniquely determined by the key order and the input order;
it is embedded by insertion sort, whose stability is proved below. -/
def sortedPairs (cs : List (ℤ × ℤ)) : List (ℤ × ℕ × ℕ) :=
  (candidatePairs cs).insertionSort pairLE

/-- `deg[k] += 1` on the degree table, modelled as a function update. -/
def bump (deg : ℕ → ℕ) (k : ℕ) : ℕ → ℕ :=
  fun x => if x = k then deg x + 1 else deg x

/-- The greedy scan over the sorted pairs: skip a triple when either
endpoint has reached `degree`, otherwise emit it and increment both
degree counters. -/
def acceptPairs (degree : ℤ) : List (ℤ × ℕ × ℕ) → (ℕ → ℕ) → List (ℤ × ℕ × ℕ)
  | [], _ => []
  | t :: rest, deg =>
    if degree ≤ (deg t.2.1 : ℤ) ∨ degree ≤ (deg t.2.2 : ℤ) then
      acceptPairs degree rest deg
    else
      t :: acceptPairs degree rest (bump (bump deg t.2.1) t.2.2)

/-- The triples accepted by `draw_lines` on `cs` with bound `degree`,
starting from the all-zero degree table `deg = [0] * len(centers)`. -/
def acceptedTriples (cs : List (ℤ × ℤ)) (degree : ℤ) : List (ℤ × ℕ × ℕ) :=
  acceptPairs degree (sortedPairs cs) fun _ => 0

/-- The edges `draw_lines` draws (the `cv2.line` calls), in acceptance
order. -/
def drawLinesEdges (cs : List (ℤ × ℤ)) (degree : ℤ) : List (ℕ × ℕ) :=
  (acceptedTriples cs degree).map fun t => (t.2.1, t.2.2)

/-- How many emitted edges have `k` as an endpoint. -/
def countEndpoints (k : ℕ) (edges : List (ℕ × ℕ)) : ℕ :=
  edges.countP fun e => decide (e.1 = k ∨ e.2 = k)

/-- The contours the shared loop accepts: spec §4.1 step 6 states a
contour is rejected exactly when its area leaves `[min_area, max_area]`;
this definition follows the spec's words and is proved below to agree
with the source's loop. -/
def acceptedContours (min_area max_area : ℤ) (cs : List Contour) : List Contour :=
  cs.filter fun c => decide ((min_area : ℚ) ≤ c.area ∧ c.area ≤ (max_area : ℚ))

/-- The bounding-rect center `(x + w // 2, y + h // 2)` of a contour. -/
def centerOf (c : Contour) : ℤ × ℤ :=
  (((c.x + c.w / 2 : ℕ) : ℤ), ((c.y + c.h / 2 : ℕ) : ℤ))

/-- The bounding rectangle of a contour, as appended to `boxes`. -/
def rectOf (c : Contour) : ℕ × ℕ × ℕ × ℕ :=
  (c.x, c.y, c.w, c.h)

/-- A concrete stand-in for the external image library, used only to
instantiate theorems at computable inputs (the library itself is an
external collaborator of the repository). -/
def sampleOps : ImageOps where
  cvtColorGray frame := frame.map fun p => p.1
  gaussianBlur g _ := g
  otsuBinarize g := g.map fun p => if 0 < p then 255 else 0
  morphOpen g _ _ := g
  morphClose g _ _ := g
  findContours g :=
    if g.all (· == 0) then []
    else [⟨6, 2, 3, 4, 5⟩, ⟨200000, 0, 0, 600, 600⟩, ⟨1, 0, 0, 1, 1⟩]
  distanceTransform g := g.map fun p => (p : ℚ)
  dilateDist d _ := d
  connectedCentroids g := if g.all (· == 0) then [] else [(5 / 2, 7 / 2)]

/-- An all-black 2×2 frame. -/
def blackFrame : Frame := [(0, 0, 0), (0, 0, 0), (0, 0, 0), (0, 0, 0)]

/-- A tiny frame with one bright pixel. -/
def brightFrame : Frame := [(0, 0, 0), (9, 0, 0)]

/-! Supporting lemmas. -/

theorem mkLabelsFrom_length (i : ℕ) (l : List ℚ) :
    (mkLabelsFrom i l).length = l.length := by
  induction l generalizing i with
  | nil => rfl
  | cons a rest ih => simp [mkLabelsFrom, ih]

/-- The source's skip-on-reject loop agrees with filtering by the
inclusive area band and mapping the three projections. -/
theorem collectDetections_eq (mn mx : ℤ) (cs : List Contour) :
    collectDetections mn mx cs =
      ((acceptedContours mn mx cs).map centerOf,
       (acceptedContours mn mx cs).map rectOf,
       (acceptedContours mn mx cs).map fun c => c.area) := by
  induction cs with
  | nil => rfl
  | cons c rest ih =>
    by_cases h : c.area < (mn : ℚ) ∨ (mx : ℚ) < c.area
    · have hacc : ¬ ((mn : ℚ) ≤ c.area ∧ c.area ≤ (mx : ℚ)) := by
        rcases h with h | h
        · exact fun hb => absurd hb.1 (not_le.mpr h)
        · exact fun hb => absurd hb.2 (not_le.mpr h)
      simp [collectDetections, acceptedContours, h, hacc, ih]
    · have hacc : (mn : ℚ) ≤ c.area ∧ c.area ≤ (mx : ℚ) := by
        push_neg at h
        exact ⟨not_lt.mp (fun hb => absurd hb (by simpa using h.1)), h.2⟩
      simp [collectDetections, acceptedContours, h, hacc, ih, centerOf, rectOf]

theorem getD_map_of_lt {α β : Type} (f : α → β) (d : β) (d' : α) :
    ∀ (l : List α) (i : ℕ), i < l.length → (l.map f).getD i d = f (l.getD i d')
  | _ :: _, 0, _ => rfl
  | _ :: l, i + 1, h => by
    simpa using getD_map_of_lt f d d' l i (by simpa using h)

theorem acceptPairs_sublist (d : ℤ) :
    ∀ (ps : List (ℤ × ℕ × ℕ)) (deg : ℕ → ℕ), List.Sublist (acceptPairs d ps deg) ps
  | [], _ => List.Sublist.refl _
  | t :: rest, deg => by
    by_cases h : d ≤ (deg t.2.1 : ℤ) ∨ d ≤ (deg t.2.2 : ℤ)
    · simp only [acceptPairs, if_pos h]
      exact (acceptPairs_sublist d rest deg).cons t
    · simp only [acceptPairs, if_neg h]
      exact (acceptPairs_sublist d rest _).cons₂ t

theorem acceptPairs_countP_le (d : ℤ) (k : ℕ) :
    ∀ (ps : List (ℤ × ℕ × ℕ)) (deg : ℕ → ℕ),
      (acceptPairs d ps deg).countP (fun t => decide (t.2.1 = k ∨ t.2.2 = k)) ≤
        (d - (deg k : ℤ)).toNat
  | [], _ => Nat.zero_le _
  | t :: rest, deg => by
    by_cases h : d ≤ (deg t.2.1 : ℤ) ∨ d ≤ (deg t.2.2 : ℤ)
    · simp only [acceptPairs, if_pos h]
      exact acceptPairs_countP_le d k rest deg
    · rw [show acceptPairs d (t :: rest) deg =
          t :: acceptPairs d rest (bump (bump deg t.2.1) t.2.2) by
        simp only [acceptPairs, if_neg h]]
      rw [List.countP_cons]
      push_neg at h
      obtain ⟨h1, h2⟩ := h
      have ih := acceptPairs_countP_le d k rest (bump (bump deg t.2.1) t.2.2)
      by_cases hk : t.2.1 = k ∨ t.2.2 = k
      · have hdk : (deg k : ℤ) < d := by
          rcases hk with hk | hk
          · rw [← hk]; exact h1
          · rw [← hk]; exact h2
        have hb : deg k + 1 ≤ bump (bump deg t.2.1) t.2.2 k := by
          rcases hk with hk | hk <;> rw [← hk] <;> simp only [bump] <;>
            split_ifs <;> omega
        rw [if_pos (decide_eq_true hk)]
        omega
      · push_neg at hk
        have e2 : ¬ (k = t.2.2) := fun hh => hk.2 hh.symm
        have e1 : ¬ (k = t.2.1) := fun hh => hk.1 hh.symm
        have hb : bump (bump deg t.2.1) t.2.2 k = deg k := by
          simp [bump, e1, e2]
        rw [if_neg (by simp [hk.1, hk.2])]
        omega

theorem acceptPairs_eq_nil_of_nonpos (d : ℤ) (hd : d ≤ 0) :
    ∀ (ps : List (ℤ × ℕ × ℕ)) (deg : ℕ → ℕ), acceptPairs d ps deg = []
  | [], _ => rfl
  | t :: rest, deg => by
    have h : d ≤ (deg t.2.1 : ℤ) ∨ d ≤ (deg t.2.2 : ℤ) := Or.inl (by omega)
    simp only [acceptPairs, if_pos h]
    exact acceptPairs_eq_nil_of_nonpos d hd rest deg

theorem mem_indexPairs {n : ℕ} {p : ℕ × ℕ} :
    p ∈ indexPairs n ↔ p.1 < p.2 ∧ p.2 < n := by
  unfold indexPairs
  simp only [List.mem_flatMap, List.mem_map, List.mem_range, List.mem_range']
  constructor
  · rintro ⟨i, hi, j, ⟨o, ho, rfl⟩, rfl⟩
    omega
  · rintro ⟨h1, h2⟩
    exact ⟨p.1, by omega, p.2, ⟨p.2 - (p.1 + 1), by omega⟩, rfl⟩

theorem nodup_indexPairs (n : ℕ) : (indexPairs n).Nodup := by
  unfold indexPairs
  rw [List.nodup_flatMap]
  constructor
  · intro i _
    refine List.Nodup.map ?_ ?_
    · intro a b hab
      simpa using congrArg Prod.snd hab
    · exact List.nodup_range' _ _
  · have hn : (List.range n).Nodup := List.nodup_range n
    refine hn.imp ?_
    intro i j hij a ha hb
    simp only [List.mem_map] at ha hb
    obtain ⟨x, _, rfl⟩ := ha
    obtain ⟨y, _, hy⟩ := hb
    exact hij (by simpa using (congrArg Prod.fst hy).symm)

theorem candidatePairs_map_snd (cs : List (ℤ × ℤ)) :
    (candidatePairs cs).map (fun t => (t.2.1, t.2.2)) = indexPairs cs.length := by
  unfold candidatePairs
  rw [List.map_map]
  exact List.map_id _

theorem sortedPairs_pairwise (cs : List (ℤ × ℤ)) :
    (sortedPairs cs).Pairwise pairLE :=
  List.sorted_insertionSort pairLE (candidatePairs cs)

theorem sortedPairs_perm (cs : List (ℤ × ℤ)) :
    List.Perm (sortedPairs cs) (candidatePairs cs) :=
  List.perm_insertionSort pairLE (candidatePairs cs)

/-- Any key class of a filter is pairwise related under the key order. -/
theorem filter_key_pairwise (l : List (ℤ × ℕ × ℕ)) (v : ℤ) :
    (l.filter (fun t => decide (t.1 = v))).Pairwise pairLE := by
  apply List.pairwise_of_forall_mem_list
  intro a ha b hb
  have ha2 : a.1 = v := by simpa using (List.mem_filter.mp ha).2
  have hb2 : b.1 = v := by simpa using (List.mem_filter.mp hb).2
  show a.1 ≤ b.1
  rw [ha2, hb2]

/-- Stability of the embedded sort: within each class of candidate pairs
of equal squared distance, the sorted list keeps the enumeration order. -/
theorem sortedPairs_filter_key (cs : List (ℤ × ℤ)) (v : ℤ) :
    (sortedPairs cs).filter (fun t => decide (t.1 = v)) =
      (candidatePairs cs).filter (fun t => decide (t.1 = v)) := by
  have hsub : List.Sublist
      ((candidatePairs cs).filter (fun t => decide (t.1 = v))) (sortedPairs cs) :=
    List.sublist_insertionSort (filter_key_pairwise _ v)
      ((candidatePairs cs).filter_sublist)
  have hself : ((candidatePairs cs).filter (fun t => decide (t.1 = v))).filter
      (fun t => decide (t.1 = v)) =
      (candidatePairs cs).filter (fun t => decide (t.1 = v)) :=
    List.filter_eq_self.mpr fun a ha => (List.mem_filter.mp ha).2
  have hsub2 : List.Sublist ((candidatePairs cs).filter (fun t => decide (t.1 = v)))
      ((sortedPairs cs).filter (fun t => decide (t.1 = v))) := by
    have := hsub.filter (fun t => decide (t.1 = v))
    rwa [hself] at this
  have hperm : List.Perm ((sortedPairs cs).filter (fun t => decide (t.1 = v)))
      ((candidatePairs cs).filter (fun t => decide (t.1 = v))) :=
    (sortedPairs_perm cs).filter _
  exact (hsub2.eq_of_length hperm.length_eq.symm).symm

theorem otsuMetadataOf_eq (ops : ImageOps) (frame : Frame) (o : OtsuOptions) :
    Otsu.metadataOf ops frame o =
      contourMetadata o.min_area o.max_area (Otsu.contoursOf ops frame o) := rfl

theorem percentileMetadataOf_eq (ops : ImageOps) (frame : Frame)
    (o : PercentileOptions) :
    Percentile.metadataOf ops frame o =
      contourMetadata o.min_area o.max_area (Percentile.contoursOf ops frame o) := rfl

theorem fixedMetadataOf_eq (ops : ImageOps) (frame : Frame) (o : FixedOptions) :
    Fixed.metadataOf ops frame o =
      contourMetadata o.min_area o.max_area (Fixed.contoursOf ops frame o) := rfl

/-- The four metadata fields of a contour variant, expressed through the
inclusive-band filter. -/
theorem contourMetadata_spec (mn mx : ℤ) (cl : List Contour) :
    (contourMetadata mn mx cl).centers = (acceptedContours mn mx cl).map centerOf ∧
    (contourMetadata mn mx cl).boxes = (acceptedContours mn mx cl).map rectOf ∧
    (contourMetadata mn mx cl).areas = (acceptedContours mn mx cl).map (fun c => c.area) ∧
    (contourMetadata mn mx cl).labels = mkLabels ((contourMetadata mn mx cl).areas) := by
  simp [contourMetadata, collectDetections_eq]

/-- The source's reject test `area < min_area or area > max_area` filters
exactly the complement of the inclusive band. -/
theorem filter_reject_eq (mn mx : ℤ) (cl : List Contour) :
    cl.filter (fun c => !(decide (c.area < (mn : ℚ)) || decide ((mx : ℚ) < c.area))) =
      acceptedContours mn mx cl := by
  unfold acceptedContours
  apply List.filter_congr
  intro c _
  by_cases h1 : c.area < (mn : ℚ)
  · simp [h1, not_le.mpr h1]
  · by_cases h2 : (mx : ℚ) < c.area
    · simp [h1, h2, not_le.mpr h2]
    · simp [h1, h2, not_lt.mp h1, not_lt.mp h2]

theorem acceptedContours_length_mono {mn₁ mn₂ : ℤ} (mx : ℤ) (h : mn₁ ≤ mn₂)
    (cl : List Contour) :
    (acceptedContours mn₂ mx cl).length ≤ (acceptedContours mn₁ mx cl).length := by
  unfold acceptedContours
  refine (List.monotone_filter_right cl ?_).length_le
  intro a ha
  simp only [decide_eq_true_eq] at ha ⊢
  exact ⟨le_trans (by exact_mod_cast h) ha.1, ha.2⟩

/-! The claims. -/

/-- C4: every center index is an endpoint of at most `max_degree` emitted
edges; with `max_degree = 0`, or with fewer than two centers, the emitted
edge list is empty. -/
theorem c4_degree_bound (cs : List (ℤ × ℤ)) (degree : ℤ) (k : ℕ)
    (h : 0 ≤ degree) :
    (countEndpoints k (drawLinesEdges cs degree) : ℤ) ≤ degree ∧
    (degree = 0 → drawLinesEdges cs degree = []) ∧
    (cs.length < 2 → drawLinesEdges cs degree = []) := by
  refine ⟨?_, ?_, ?_⟩
  · have hc : countEndpoints k (drawLinesEdges cs degree) =
        (acceptedTriples cs degree).countP (fun t => decide (t.2.1 = k ∨ t.2.2 = k)) := by
      unfold countEndpoints drawLinesEdges
      rw [List.countP_map]
      rfl
    have hcount : (acceptPairs degree (sortedPairs cs) (fun _ => 0)).countP
        (fun t => decide (t.2.1 = k ∨ t.2.2 = k)) ≤ (degree - ((0 : ℕ) : ℤ)).toNat :=
      acceptPairs_countP_le degree k (sortedPairs cs) (fun _ => 0)
    rw [hc]
    unfold acceptedTriples
    omega
  · intro h0
    subst h0
    simp [drawLinesEdges, acceptedTriples,
      acceptPairs_eq_nil_of_nonpos 0 (le_refl 0)]
  · intro hlen
    have hip : indexPairs cs.length = [] := by
      rw [List.eq_nil_iff_forall_not_mem]
      intro p hp
      have := mem_indexPairs.mp hp
      omega
    simp [drawLinesEdges, acceptedTriples, sortedPairs, candidatePairs, hip,
      List.insertionSort, acceptPairs]

/-- Witness for C4 at concrete inputs. -/
theorem c4_degree_bound_w :
    (countEndpoints 0 (drawLinesEdges [((0 : ℤ), (0 : ℤ)), ((3 : ℤ), (4 : ℤ))] 2) : ℤ) ≤ 2 ∧
    drawLinesEdges [((0 : ℤ), (0 : ℤ))] 0 = [] :=
  ⟨(c4_degree_bound [((0 : ℤ), (0 : ℤ)), ((3 : ℤ), (4 : ℤ))] 2 0 (by decide)).1,
   (c4_degree_bound [((0 : ℤ), (0 : ℤ))] 0 0 (by decide)).2.1 rfl⟩

/-- C6: the accepted triples are scanned and emitted in ascending order of
squared distance (they form a sublist of the sorted candidate list, whose
keys are nondecreasing), and the sort is stable: candidate pairs of equal
squared distance keep their enumeration order. The output is a pure
function of the input, hence deterministic. -/
theorem c6_sorted_stable_order (cs : List (ℤ × ℤ)) (degree : ℤ) :
    (acceptedTriples cs degree).Pairwise (fun a b => a.1 ≤ b.1) ∧
    List.Sublist (acceptedTriples cs degree) (sortedPairs cs) ∧
    ∀ v : ℤ, (sortedPairs cs).filter (fun t => decide (t.1 = v)) =
      (candidatePairs cs).filter (fun t => decide (t.1 = v)) :=
  ⟨(sortedPairs_pairwise cs).sublist (acceptPairs_sublist degree (sortedPairs cs) _),
   acceptPairs_sublist degree (sortedPairs cs) _,
   sortedPairs_filter_key cs⟩

/-- C9: on the four centers (0,0), (1,0), (0,5), (1,5) with
`max_degree = 2` the connector accepts exactly (0,1), (2,3), (0,2), (1,3)
in that order, and every endpoint finishes with degree exactly 2. -/
theorem c9_concrete_scenario :
    drawLinesEdges [((0 : ℤ), (0 : ℤ)), (1, 0), (0, 5), (1, 5)] 2 =
      [(0, 1), (2, 3), (0, 2), (1, 3)] ∧
    countEndpoints 0 (drawLinesEdges [((0 : ℤ), (0 : ℤ)), (1, 0), (0, 5), (1, 5)] 2) = 2 ∧
    countEndpoints 1 (drawLinesEdges [((0 : ℤ), (0 : ℤ)), (1, 0), (0, 5), (1, 5)] 2) = 2 ∧
    countEndpoints 2 (drawLinesEdges [((0 : ℤ), (0 : ℤ)), (1, 0), (0, 5), (1, 5)] 2) = 2 ∧
    countEndpoints 3 (drawLinesEdges [((0 : ℤ), (0 : ℤ)), (1, 0), (0, 5), (1, 5)] 2) = 2 := by
  refine ⟨?_, ?_, ?_, ?_, ?_⟩ <;> decide

/-- C10: every emitted edge is an ordered pair of distinct in-range
indices, and no unordered pair is emitted twice. -/
theorem c10_edges_wellformed (cs : List (ℤ × ℤ)) (degree : ℤ) :
    (∀ e ∈ drawLinesEdges cs degree, e.1 < e.2 ∧ e.2 < cs.length) ∧
    (drawLinesEdges cs degree).Nodup := by
  constructor
  · intro e he
    unfold drawLinesEdges at he
    obtain ⟨t, ht, rfl⟩ := List.mem_map.mp he
    have h1 : t ∈ sortedPairs cs :=
      (acceptPairs_sublist degree (sortedPairs cs) _).mem ht
    have h2 : t ∈ candidatePairs cs := (sortedPairs_perm cs).mem_iff.mp h1
    unfold candidatePairs at h2
    obtain ⟨ij, hij, rfl⟩ := List.mem_map.mp h2
    simpa using mem_indexPairs.mp hij
  · have hsub : List.Sublist
        ((acceptedTriples cs degree).map fun t => (t.2.1, t.2.2))
        ((sortedPairs cs).map fun t => (t.2.1, t.2.2)) :=
      (acceptPairs_sublist degree (sortedPairs cs) _).map _
    have hperm : List.Perm ((sortedPairs cs).map fun t => (t.2.1, t.2.2))
        ((candidatePairs cs).map fun t => (t.2.1, t.2.2)) :=
      (sortedPairs_perm cs).map _
    have hnd : ((candidatePairs cs).map fun t => (t.2.1, t.2.2)).Nodup := by
      rw [candidatePairs_map_snd]
      exact nodup_indexPairs _
    exact (hperm.nodup_iff.mpr hnd).sublist hsub

/-- Witness for C10 at a concrete input. -/
theorem c10_edges_wellformed_w : (0 : ℕ) < 1 ∧ (1 : ℕ) < 2 :=
  (c10_edges_wellformed [((0 : ℤ), (0 : ℤ)), ((3 : ℤ), (4 : ℤ))] 2).1 (0, 1) (by decide)

/-- C1 counterexample: `blur_size = 4` is even, outside the documented
range, yet the Otsu `process_frame` performs the image pipeline and
returns a normal result; no ConfigurationError is raised. -/
theorem c1_no_validation_cex :
    (4 : ℤ) % 2 = 0 ∧
    (Otsu.process_frameE sampleOps blackFrame ⟨4, 3, 2, 86400⟩).isOk = true :=
  ⟨rfl, rfl⟩

/-- C1 (amended): no variant validates its options. For every frame and
every options value, in range or not, `process_frame` returns a normal
result built from the verbatim option values; it can never raise a
ConfigurationError, and nothing is clamped. -/
theorem c1_no_validation (ops : ImageOps) (frame : Frame) (o₁ : OtsuOptions)
    (o₂ : PercentileOptions) (o₃ : FixedOptions) (o₄ : PeaksOptions) :
    Otsu.process_frameE ops frame o₁ = .ok (Otsu.process_frame ops frame o₁) ∧
    Percentile.process_frameE ops frame o₂ = .ok (Percentile.process_frame ops frame o₂) ∧
    Fixed.process_frameE ops frame o₃ = .ok (Fixed.process_frame ops frame o₃) ∧
    Peaks.process_frameE ops frame o₄ = .ok (Peaks.process_frame ops frame o₄) ∧
    (Otsu.process_frame ops frame o₁).1 =
      otsu_thresholding ops frame o₁.blur_size o₁.clean_size ∧
    (Fixed.process_frame ops frame o₃).1 =
      fixed_thresholding ops frame o₃.margin o₃.blur_size o₃.clean_size :=
  ⟨rfl, rfl, rfl, rfl, rfl, rfl⟩

/-- C2: evaluated at a concrete frame, the Otsu variant returns the
4-tuple (mask, contours, centers, metadata) while the Peaks variant
returns the bare metadata record: the return shapes are not uniform,
contradicting the declared result type of `process_frame` in
core/algorithms/__init__.py and the record access performed by app.py. -/
theorem c2_return_shape :
    Otsu.process_frame sampleOps blackFrame {} =
      ([0, 0, 0, 0], [], [], ⟨[], [], [], []⟩) ∧
    Peaks.process_frame sampleOps blackFrame {} = ⟨[], [], [], []⟩ := by
  constructor
  · decide
  · norm_num [Peaks.process_frame, peaks_thresholding, sampleOps, blackFrame,
      threshBinary, pyInt]

/-- C3: in each variant's metadata record the fields are co-indexed: the
three contour variants obtain `centers`, `boxes` and `areas` by mapping
the three projections over the same accepted-contour list (so position i
of every field describes the same blob) and `labels` is the enumeration
of `areas`; all four fields have equal length. The Peaks variant returns
empty `boxes`/`areas`/`labels`. -/
theorem c3_metadata_coindexed (ops : ImageOps) (frame : Frame)
    (o₁ : OtsuOptions) (o₂ : PercentileOptions) (o₃ : FixedOptions)
    (o₄ : PeaksOptions) :
    ((Otsu.metadataOf ops frame o₁).centers =
        (acceptedContours o₁.min_area o₁.max_area (Otsu.contoursOf ops frame o₁)).map centerOf ∧
      (Otsu.metadataOf ops frame o₁).boxes =
        (acceptedContours o₁.min_area o₁.max_area (Otsu.contoursOf ops frame o₁)).map rectOf ∧
      (Otsu.metadataOf ops frame o₁).areas =
        (acceptedContours o₁.min_area o₁.max_area (Otsu.contoursOf ops frame o₁)).map (fun c => c.area) ∧
      (Otsu.metadataOf ops frame o₁).labels = mkLabels ((Otsu.metadataOf ops frame o₁).areas) ∧
      (Otsu.metadataOf ops frame o₁).boxes.length = (Otsu.metadataOf ops frame o₁).centers.length ∧
      (Otsu.metadataOf ops frame o₁).areas.length = (Otsu.metadataOf ops frame o₁).centers.length ∧
      (Otsu.metadataOf ops frame o₁).labels.length = (Otsu.metadataOf ops frame o₁).centers.length) ∧
    ((Percentile.metadataOf ops frame o₂).centers =
        (acceptedContours o₂.min_area o₂.max_area (Percentile.contoursOf ops frame o₂)).map centerOf ∧
      (Percentile.metadataOf ops frame o₂).boxes =
        (acceptedContours o₂.min_area o₂.max_area (Percentile.contoursOf ops frame o₂)).map rectOf ∧
      (Percentile.metadataOf ops frame o₂).areas =
        (acceptedContours o₂.min_area o₂.max_area (Percentile.contoursOf ops frame o₂)).map (fun c => c.area) ∧
      (Percentile.metadataOf ops frame o₂).labels = mkLabels ((Percentile.metadataOf ops frame o₂).areas) ∧
      (Percentile.metadataOf ops frame o₂).boxes.length = (Percentile.metadataOf ops frame o₂).centers.length ∧
      (Percentile.metadataOf ops frame o₂).areas.length = (Percentile.metadataOf ops frame o₂).centers.length ∧
      (Percentile.metadataOf ops frame o₂).labels.length = (Percentile.metadataOf ops frame o₂).centers.length) ∧
    ((Fixed.metadataOf ops frame o₃).centers =
        (acceptedContours o₃.min_area o₃.max_area (Fixed.contoursOf ops frame o₃)).map centerOf ∧
      (Fixed.metadataOf ops frame o₃).boxes =
        (acceptedContours o₃.min_area o₃.max_area (Fixed.contoursOf ops frame o₃)).map rectOf ∧
      (Fixed.metadataOf ops frame o₃).areas =
        (acceptedContours o₃.min_area o₃.max_area (Fixed.contoursOf ops frame o₃)).map (fun c => c.area) ∧
      (Fixed.metadataOf ops frame o₃).labels = mkLabels ((Fixed.metadataOf ops frame o₃).areas) ∧
      (Fixed.metadataOf ops frame o₃).boxes.length = (Fixed.metadataOf ops frame o₃).centers.length ∧
      (Fixed.metadataOf ops frame o₃).areas.length = (Fixed.metadataOf ops frame o₃).centers.length ∧
      (Fixed.metadataOf ops frame o₃).labels.length = (Fixed.metadataOf ops frame o₃).centers.length) ∧
    ((Peaks.process_frame ops frame o₄).boxes = [] ∧
      (Peaks.process_frame ops frame o₄).areas = [] ∧
      (Peaks.process_frame ops frame o₄).labels = []) := by
  refine ⟨?_, ?_, ?_, ⟨rfl, rfl, rfl⟩⟩
  · obtain ⟨h1, h2, h3, h4⟩ :=
      contourMetadata_spec o₁.min_area o₁.max_area (Otsu.contoursOf ops frame o₁)
    refine ⟨h1, h2, h3, h4, ?_, ?_, ?_⟩
    · rw [otsuMetadataOf_eq, h1, h2]; simp
    · rw [otsuMetadataOf_eq, h1, h3]; simp
    · rw [otsuMetadataOf_eq, h4, h3, h1, mkLabels, mkLabelsFrom_length]; simp
  · obtain ⟨h1, h2, h3, h4⟩ :=
      contourMetadata_spec o₂.min_area o₂.max_area (Percentile.contoursOf ops frame o₂)
    refine ⟨h1, h2, h3, h4, ?_, ?_, ?_⟩
    · rw [percentileMetadataOf_eq, h1, h2]; simp
    · rw [percentileMetadataOf_eq, h1, h3]; simp
    · rw [percentileMetadataOf_eq, h4, h3, h1, mkLabels, mkLabelsFrom_length]; simp
  · obtain ⟨h1, h2, h3, h4⟩ :=
      contourMetadata_spec o₃.min_area o₃.max_area (Fixed.contoursOf ops frame o₃)
    refine ⟨h1, h2, h3, h4, ?_, ?_, ?_⟩
    · rw [fixedMetadataOf_eq, h1, h2]; simp
    · rw [fixedMetadataOf_eq, h1, h3]; simp
    · rw [fixedMetadataOf_eq, h4, h3, h1, mkLabels, mkLabelsFrom_length]; simp

/-- C5 counterexample: on a uniform smoothed image the 96th-percentile
threshold is 100, and the pixels whose value is exactly 100 — at the
threshold, hence "at or above" it — are all classified background (0),
not foreground. -/
theorem c5_at_threshold_cex :
    npPercentile (grayToRats [100, 100, 100, 100]) 96 = 100 ∧
    percentileBinarize [100, 100, 100, 100] 96 = [0, 0, 0, 0] := by
  have h0 : grayToRats [100, 100, 100, 100] = [(100 : ℚ), 100, 100, 100] := by
    norm_num [grayToRats]
  have h : npPercentile [(100 : ℚ), 100, 100, 100] 96 = 100 := by
    norm_num [npPercentile, List.insertionSort, List.orderedInsert,
      show ((2 : ℤ)).toNat = 2 from rfl, List.getElem_cons_succ, List.getElem_cons_zero]
  constructor
  · rw [h0]; exact h
  · simp only [percentileBinarize, threshBinary, h0, h]
    norm_num

/-- C5 (amended): the binarization threshold is the `percentile`-th
percentile of the smoothed intensities, and a pixel is classified
foreground (255) exactly when its smoothed intensity is strictly above
that threshold; a pixel exactly equal to the threshold is background. -/
theorem c5_percentile_strict (blur : Gray) (q : ℚ) (i : ℕ)
    (h : i < blur.length) :
    ((percentileBinarize blur q).getD i 0 = 255 ↔
      npPercentile (grayToRats blur) q < ((blur.getD i 0 : ℕ) : ℚ)) ∧
    (((blur.getD i 0 : ℕ) : ℚ) = npPercentile (grayToRats blur) q →
      (percentileBinarize blur q).getD i 0 = 0) := by
  have hg : (percentileBinarize blur q).getD i 0 =
      if npPercentile (grayToRats blur) q < ((blur.getD i 0 : ℕ) : ℚ)
        then 255 else 0 := by
    unfold percentileBinarize threshBinary
    exact getD_map_of_lt _ 0 0 blur i h
  constructor
  · rw [hg]
    split_ifs with hc
    · simpa using hc
    · simpa using hc
  · intro he
    rw [hg, if_neg (by rw [← he]; exact lt_irrefl _)]

/-- Witness for C5 at a concrete input. -/
theorem c5_percentile_strict_w :
    1 < ([3, 200] : Gray).length ∧
    ((percentileBinarize [3, 200] 50).getD 1 0 = 255 ↔
      npPercentile (grayToRats [3, 200]) 50 <
        ((([3, 200] : Gray).getD 1 0 : ℕ) : ℚ)) :=
  ⟨by decide, (c5_percentile_strict [3, 200] 50 1 (by decide)).1⟩

/-- C7: on the same frame, with all other options equal, raising
`min_area` cannot increase the number of detections, in each of the
three contour variants. -/
theorem c7_min_area_monotone (ops : ImageOps) (frame : Frame)
    (bs cls mx : ℤ) (q m : ℚ) {mn₁ mn₂ : ℤ} (h : mn₁ ≤ mn₂) :
    ((Otsu.process_frame ops frame ⟨bs, cls, mn₂, mx⟩).2.2.1).length ≤
      ((Otsu.process_frame ops frame ⟨bs, cls, mn₁, mx⟩).2.2.1).length ∧
    ((Percentile.process_frame ops frame ⟨q, bs, cls, mn₂, mx⟩).2.2.1).length ≤
      ((Percentile.process_frame ops frame ⟨q, bs, cls, mn₁, mx⟩).2.2.1).length ∧
    ((Fixed.process_frame ops frame ⟨m, bs, cls, mn₂, mx⟩).2.2.1).length ≤
      ((Fixed.process_frame ops frame ⟨m, bs, cls, mn₁, mx⟩).2.2.1).length := by
  refine ⟨?_, ?_, ?_⟩
  · have e : ∀ mn : ℤ, (Otsu.process_frame ops frame ⟨bs, cls, mn, mx⟩).2.2.1 =
        (acceptedContours mn mx
          (ops.findContours (otsu_thresholding ops frame bs cls))).map centerOf :=
      fun mn => (contourMetadata_spec mn mx _).1
    rw [e mn₁, e mn₂]
    simpa using acceptedContours_length_mono mx h _
  · have e : ∀ mn : ℤ, (Percentile.process_frame ops frame ⟨q, bs, cls, mn, mx⟩).2.2.1 =
        (acceptedContours mn mx
          (ops.findContours (percentile_thresholding ops frame q bs cls))).map centerOf :=
      fun mn => (contourMetadata_spec mn mx _).1
    rw [e mn₁, e mn₂]
    simpa using acceptedContours_length_mono mx h _
  · have e : ∀ mn : ℤ, (Fixed.process_frame ops frame ⟨m, bs, cls, mn, mx⟩).2.2.1 =
        (acceptedContours mn mx
          (ops.findContours (fixed_thresholding ops frame m bs cls))).map centerOf :=
      fun mn => (contourMetadata_spec mn mx _).1
    rw [e mn₁, e mn₂]
    simpa using acceptedContours_length_mono mx h _

/-- Witness for C7 at a concrete input. -/
theorem c7_min_area_monotone_w :
    ((Otsu.process_frame sampleOps brightFrame ⟨5, 3, 7, 86400⟩).2.2.1).length ≤
      ((Otsu.process_frame sampleOps brightFrame ⟨5, 3, 2, 86400⟩).2.2.1).length :=
  (c7_min_area_monotone sampleOps brightFrame 5 3 86400 96 0 (by decide)).1

/-- C8: in the three contour variants every reported area lies inside
`[min_area, max_area]`, and the emitted centers are exactly the
bounding-rect centers `(x + w // 2, y + h // 2)` of the contours that
survive the reject test `area < min_area or area > max_area`, in
discovery order. -/
theorem c8_area_band_and_centers (ops : ImageOps) (frame : Frame)
    (o₁ : OtsuOptions) (o₂ : PercentileOptions) (o₃ : FixedOptions) :
    ((∀ a ∈ (Otsu.metadataOf ops frame o₁).areas,
        (o₁.min_area : ℚ) ≤ a ∧ a ≤ (o₁.max_area : ℚ)) ∧
      (Otsu.metadataOf ops frame o₁).centers =
        ((Otsu.contoursOf ops frame o₁).filter
          (fun c => !(decide (c.area < (o₁.min_area : ℚ)) ||
            decide ((o₁.max_area : ℚ) < c.area)))).map centerOf) ∧
    ((∀ a ∈ (Percentile.metadataOf ops frame o₂).areas,
        (o₂.min_area : ℚ) ≤ a ∧ a ≤ (o₂.max_area : ℚ)) ∧
      (Percentile.metadataOf ops frame o₂).centers =
        ((Percentile.contoursOf ops frame o₂).filter
          (fun c => !(decide (c.area < (o₂.min_area : ℚ)) ||
            decide ((o₂.max_area : ℚ) < c.area)))).map centerOf) ∧
    ((∀ a ∈ (Fixed.metadataOf ops frame o₃).areas,
        (o₃.min_area : ℚ) ≤ a ∧ a ≤ (o₃.max_area : ℚ)) ∧
      (Fixed.metadataOf ops frame o₃).centers =
        ((Fixed.contoursOf ops frame o₃).filter
          (fun c => !(decide (c.area < (o₃.min_area : ℚ)) ||
            decide ((o₃.max_area : ℚ) < c.area)))).map centerOf) := by
  refine ⟨⟨?_, ?_⟩, ⟨?_, ?_⟩, ⟨?_, ?_⟩⟩
  · intro a ha
    rw [otsuMetadataOf_eq,
      (contourMetadata_spec o₁.min_area o₁.max_area (Otsu.contoursOf ops frame o₁)).2.2.1] at ha
    obtain ⟨c, hc, rfl⟩ := List.mem_map.mp ha
    simpa using (List.mem_filter.mp hc).2
  · rw [filter_reject_eq]
    exact (contourMetadata_spec o₁.min_area o₁.max_area (Otsu.contoursOf ops frame o₁)).1
  · intro a ha
    rw [percentileMetadataOf_eq,
      (contourMetadata_spec o₂.min_area o₂.max_area (Percentile.contoursOf ops frame o₂)).2.2.1] at ha
    obtain ⟨c, hc, rfl⟩ := List.mem_map.mp ha
    simpa using (List.mem_filter.mp hc).2
  · rw [filter_reject_eq]
    exact (contourMetadata_spec o₂.min_area o₂.max_area (Percentile.contoursOf ops frame o₂)).1
  · intro a ha
    rw [fixedMetadataOf_eq,
      (contourMetadata_spec o₃.min_area o₃.max_area (Fixed.contoursOf ops frame o₃)).2.2.1] at ha
    obtain ⟨c, hc, rfl⟩ := List.mem_map.mp ha
    simpa using (List.mem_filter.mp hc).2
  · rw [filter_reject_eq]
    exact (contourMetadata_spec o₃.min_area o₃.max_area (Fixed.contoursOf ops frame o₃)).1

/-- Witness for C8 at a concrete input. -/
theorem c8_area_band_and_centers_w :
    (((2 : ℤ) : ℚ) ≤ 6 ∧ (6 : ℚ) ≤ ((86400 : ℤ) : ℚ)) :=
  ((c8_area_band_and_centers sampleOps brightFrame {} {} {}).1).1 6 (by decide)

end LightCV
